import Mathlib

/-!
Shallow embedding of the core of ecpprog (src/ecpprog/ecpprog.c and
src/ecpprog/mpsse.c), a JTAG programming tool for Lattice ECP5/NX FPGAs,
together with proofs about the claims of its specification.

Conventions of the embedding:
- C machine integers in the modelled code ranges are nonnegative and free of
  overflow except where the source relies on wrap-around; they are embedded as
  Nat, with an explicit % 2 ^ 32 (resp. % 2 ^ 64) exactly where the source
  assigns to a uint32_t (resp. uint64_t) a possibly wider value.
- Byte buffers are List Nat (each element intended < 256).
- The hardware-facing calls of the auxiliary JTAG module (jtag.h, not part of
  the sources) are embedded as abstract trace events: the functions below
  return the list of JTAG operations they perform, which is what the claims
  speak about.  Data that the hardware returns (TDO bytes, SR1 poll bytes,
  flash read-back bytes) is passed in as an explicit parameter.
-/

namespace Ecpprog

/-- TAP states of the IEEE 1149.1 state machine, as named by the jtag.h
interface used by ecpprog.c (STATE_SHIFT_IR, STATE_SHIFT_DR,
STATE_RUN_TEST_IDLE, STATE_CAPTURE_DR are the ones the source uses). -/
inductive TapState
  | TEST_LOGIC_RESET | RUN_TEST_IDLE
  | SELECT_DR | CAPTURE_DR | SHIFT_DR | EXIT1_DR | PAUSE_DR | EXIT2_DR | UPDATE_DR
  | SELECT_IR | CAPTURE_IR | SHIFT_IR | EXIT1_IR | PAUSE_IR | EXIT2_IR | UPDATE_IR
  deriving DecidableEq, Repr

/-- One observable call of ecpprog.c into the JTAG layer.  tapShift carries the
TDI bytes clocked out, the bit length, and the advance flag of
jtag_tap_shift(tdi, tdo, n_bits, advance). -/
inductive JEvent
  | goToState (s : TapState)
  | tapShift (tdi : List Nat) (nBits : Nat) (advance : Bool)
  | waitTime (cycles : Nat)
  | sleepUs (us : Nat)
  deriving DecidableEq, Repr

/-- Modelled from the spec: vendor JTAG IR opcode READ_ID from the header
lattice_cmds.h, which is not among the sources (spec section 4.E). -/
def READ_ID : Nat := 0xE0

/-- Modelled from the spec: vendor JTAG IR opcode LSC_READ_STATUS from
lattice_cmds.h (spec section 4.E). -/
def LSC_READ_STATUS : Nat := 0x3C

/-- Modelled from the spec: vendor JTAG IR opcode ISC_ENABLE from
lattice_cmds.h (spec section 4.E). -/
def ISC_ENABLE : Nat := 0xC6

/-- Modelled from the spec: vendor JTAG IR opcode ISC_DISABLE from
lattice_cmds.h (spec section 4.E). -/
def ISC_DISABLE : Nat := 0x26

/-- Modelled from the spec: vendor JTAG IR opcode ISC_ERASE from
lattice_cmds.h (spec section 4.E). -/
def ISC_ERASE : Nat := 0x0E

/-- Modelled from the spec: vendor JTAG IR opcode LSC_RESET_CRC from
lattice_cmds.h (spec section 4.E). -/
def LSC_RESET_CRC : Nat := 0x3B

/-- Modelled from the spec: vendor JTAG IR opcode LSC_BITSTREAM_BURST from
lattice_cmds.h (spec section 4.E). -/
def LSC_BITSTREAM_BURST : Nat := 0x7A

/-- Modelled from the spec: vendor JTAG IR opcode LSC_REFRESH from
lattice_cmds.h (spec section 4.E). -/
def LSC_REFRESH : Nat := 0x79

/-- bit_reverse from ecpprog.c: reverses the bit order of one byte.  Each C
conditional (in & mask) ? hi : 0 tests a bit for being set. -/
def bit_reverse (i : Nat) : Nat :=
  let out := if i &&& 0x01 ≠ 0 then 0x80 else 0x00
  let out := out ||| if i &&& 0x02 ≠ 0 then 0x40 else 0x00
  let out := out ||| if i &&& 0x04 ≠ 0 then 0x20 else 0x00
  let out := out ||| if i &&& 0x08 ≠ 0 then 0x10 else 0x00
  let out := out ||| if i &&& 0x10 ≠ 0 then 0x08 else 0x00
  let out := out ||| if i &&& 0x20 ≠ 0 then 0x04 else 0x00
  let out := out ||| if i &&& 0x40 ≠ 0 then 0x02 else 0x00
  let out := out ||| if i &&& 0x80 ≠ 0 then 0x01 else 0x00
  out

/-- Device type tags from ecpprog.c (enum device_type). -/
inductive device_type
  | TYPE_NONE | TYPE_ECP5 | TYPE_NX
  deriving DecidableEq, Repr

/-- One row of a vendor device table (struct device_id_pair from the missing
header lattice_cmds.h; the two concrete tables ecp_devices and nx_devices are
parameters of the model). -/
structure device_id_pair where
  device_name : String
  device_id : Nat
  deriving DecidableEq, Repr

/-- The process-wide record connected_device of ecpprog.c (struct
device_info).  Its static initialisation zeroes the type field, which is
TYPE_NONE. -/
structure device_info where
  name : String
  id : Nat
  type : device_type
  deriving DecidableEq, Repr

/-- print_idcode from ecpprog.c: scan the ECP5 table first, then the NX table,
and record the first matching row in connected_device; when no row of either
table matches, only the id field is written (the type stays TYPE_NONE) and a
warning is printed. -/
def print_idcode (ecp_devices nx_devices : List device_id_pair) (idcode : Nat) :
    device_info :=
  match ecp_devices.find? (fun d => d.device_id == idcode) with
  | some d => { name := d.device_name, id := idcode, type := .TYPE_ECP5 }
  | none =>
    match nx_devices.find? (fun d => d.device_id == idcode) with
    | some d => { name := d.device_name, id := idcode, type := .TYPE_NX }
    | none => { name := "", id := idcode, type := .TYPE_NONE }

/-- The JTAG operations of read_idcode from ecpprog.c: shift the 8-bit READ_ID
instruction into IR, then shift 32 bits out of DR (the TDI buffer data has
data[0] zeroed first; data[1..3] are already zero from its initialiser). -/
def read_idcode_events : List JEvent :=
  [ .goToState .SHIFT_IR, .tapShift [READ_ID] 8 true,
    .goToState .SHIFT_DR, .tapShift [0, 0, 0, 0] 32 true ]

/-- One iteration of the IDCODE reassembly loop of read_idcode:
idcode = data[i] << 24 | idcode >> 8, with idcode a uint32_t. -/
def idcode_step (idcode b : Nat) : Nat :=
  ((b <<< 24) ||| (idcode >>> 8)) % 2 ^ 32

/-- The IDCODE reassembly loop of read_idcode from ecpprog.c, iterated over
the response bytes (the source iterates i = 0..3 over data[4]). -/
def format_u32 (data : List Nat) : Nat :=
  data.foldl idcode_step 0

/-- One iteration of the NX status reassembly loop of read_status_register:
status = (uint64_t)data[i] << 56 | status >> 8, with status a uint64_t. -/
def status64_step (status b : Nat) : Nat :=
  ((b <<< 56) ||| (status >>> 8)) % 2 ^ 64

/-- The NX status reassembly loop of read_status_register from ecpprog.c,
iterated over the response bytes (the source iterates i = 0..7 over data[8]). -/
def format_u64 (data : List Nat) : Nat :=
  data.foldl status64_step 0

/-- The JTAG operations of read_status_register from ecpprog.c: shift the
8-bit LSC_READ_STATUS instruction into IR, go to Shift-DR, and then shift 32
bits (ECP5), 64 bits (NX) or nothing at all (neither branch taken) depending
on connected_device.type. -/
def read_status_register_events (t : device_type) : List JEvent :=
  [ .goToState .SHIFT_IR, .tapShift [LSC_READ_STATUS] 8 true,
    .goToState .SHIFT_DR ]
  ++ match t with
     | .TYPE_ECP5 => [.tapShift [0, 0, 0, 0] 32 true]
     | .TYPE_NX => [.tapShift [0, 0, 0, 0, 0, 0, 0, 0] 64 true]
     | .TYPE_NONE => []

/-- The status value read_status_register decodes and prints, given the DR
response bytes: a 32-bit value for ECP5, a 64-bit value for NX, and nothing
at all when connected_device.type is TYPE_NONE. -/
def read_status_register_value (t : device_type) (resp : List Nat) : Option Nat :=
  match t with
  | .TYPE_ECP5 => some (format_u32 (resp.take 4))
  | .TYPE_NX => some (format_u64 (resp.take 8))
  | .TYPE_NONE => none

/-- ecp_jtag_cmd from ecpprog.c: an IR-only vendor command followed by
Run-Test/Idle and a 32-cycle pause. -/
def ecp_jtag_cmd (cmd : Nat) : List JEvent :=
  [ .goToState .SHIFT_IR, .tapShift [cmd] 8 true,
    .goToState .RUN_TEST_IDLE, .waitTime 32 ]

/-- ecp_jtag_cmd8 from ecpprog.c: an IR command with one DR parameter byte,
followed by Run-Test/Idle and a 32-cycle pause. -/
def ecp_jtag_cmd8 (cmd param : Nat) : List JEvent :=
  [ .goToState .SHIFT_IR, .tapShift [cmd] 8 true,
    .goToState .SHIFT_DR, .tapShift [param] 8 true,
    .goToState .RUN_TEST_IDLE, .waitTime 32 ]

/-- enter_spi_background_mode from ecpprog.c: IR 0x3A, a 16-bit DR payload
0xFE 0x68, then Run-Test/Idle. -/
def enter_spi_background_mode_events : List JEvent :=
  [ .goToState .SHIFT_IR, .tapShift [0x3A] 8 true,
    .goToState .SHIFT_DR, .tapShift [0xFE, 0x68] 16 true,
    .goToState .RUN_TEST_IDLE ]

/-- One call of ecpprog_main into the flash command layer of ecpprog.c.  Each
constructor stands for one call: write_enable for flash_write_enable(),
page_prog for flash_prog(addr, data, n), sector_erase4 / block_erase32 /
block_erase64 for flash_4kB_sector_erase / flash_32kB_sector_erase /
flash_64kB_sector_erase, chip_erase for flash_bulk_erase(), wait_busy for
flash_wait(). -/
inductive FlashEvent
  | write_enable
  | page_prog (addr n : Nat)
  | sector_erase4 (addr : Nat)
  | block_erase32 (addr : Nat)
  | block_erase64 (addr : Nat)
  | chip_erase
  | wait_busy
  deriving DecidableEq, Repr

/-- The flash_prog calls (address, byte count) issued by the programming loop
of ecpprog_main (ecpprog.c lines 1250-1264):
for (rc, addr = 0; true; addr += rc) with
page_size = 256 - (rw_offset + addr) % 256 and rc = fread(buffer, 1,
page_size, f).  On a regular file fread returns min(page_size, bytes left),
and the loop breaks when it returns 0. -/
def prog_loop_calls (rw_offset file_size addr : Nat) : List (Nat × Nat) :=
  let page_size := 256 - (rw_offset + addr) % 256
  let rc := min page_size (file_size - addr)
  if h : rc = 0 then
    []
  else
    (rw_offset + addr, rc) :: prog_loop_calls rw_offset file_size (addr + rc)
termination_by file_size - addr
decreasing_by
  simp only [rc, page_size] at h ⊢
  omega

/-- The flash command trace of the programming loop of ecpprog_main: per
iteration flash_write_enable(); flash_prog(rw_offset + addr, buffer, rc);
flash_wait(). -/
def prog_loop_trace (rw_offset file_size addr : Nat) : List FlashEvent :=
  let page_size := 256 - (rw_offset + addr) % 256
  let rc := min page_size (file_size - addr)
  if h : rc = 0 then
    []
  else
    .write_enable :: .page_prog (rw_offset + addr) rc :: .wait_busy ::
      prog_loop_trace rw_offset file_size (addr + rc)
termination_by file_size - addr
decreasing_by
  simp only [rc, page_size] at h ⊢
  omega

/-- begin_addr of the block-erase pass of ecpprog_main (ecpprog.c line 1223):
rw_offset & ~block_mask with block_mask = block_size - 1.  On a nonnegative
int, the bitwise and with the complement of the mask is Nat.ldiff. -/
def erase_begin_addr (rw_offset block_size : Nat) : Nat :=
  Nat.ldiff rw_offset (block_size - 1)

/-- end_addr of the block-erase pass of ecpprog_main (ecpprog.c line 1224):
(rw_offset + file_size + block_mask) & ~block_mask. -/
def erase_end_addr (rw_offset file_size block_size : Nat) : Nat :=
  Nat.ldiff (rw_offset + file_size + (block_size - 1)) (block_size - 1)

/-- The switch(erase_block_size) inside the block-erase loop of ecpprog_main:
4 issues flash_4kB_sector_erase(addr) (opcode FC_SE), 32 issues
flash_32kB_sector_erase(addr) (FC_BE32), 64 issues
flash_64kB_sector_erase(addr) (FC_BE64); a switch on any other value does
nothing (unreachable: the -i parser admits only 4, 32 and 64). -/
def erase_cmd (erase_block_size addr : Nat) : List FlashEvent :=
  match erase_block_size with
  | 4 => [.sector_erase4 addr]
  | 32 => [.block_erase32 addr]
  | 64 => [.block_erase64 addr]
  | _ => []

/-- The block-erase loop of ecpprog_main (ecpprog.c lines 1226-1244):
for (addr = begin_addr; addr < end_addr; addr += block_size) do
flash_write_enable(); the erase command for erase_block_size; flash_wait().
The conjunct 0 < block_size of the guard does not change the modelled
behaviour (block_size = erase_block_size << 10 is at least 4096 wherever the
loop runs) and makes the recursion well founded. -/
def erase_loop_trace (erase_block_size addr end_addr block_size : Nat) :
    List FlashEvent :=
  if h : addr < end_addr ∧ 0 < block_size then
    .write_enable :: (erase_cmd erase_block_size addr ++ .wait_busy ::
      erase_loop_trace erase_block_size (addr + block_size) end_addr block_size)
  else
    []
termination_by end_addr - addr
decreasing_by
  omega

/-- The whole block-erase pass of ecpprog_main: block_size =
erase_block_size << 10, the outward-aligned range, then the per-block loop. -/
def erase_pass_trace (erase_block_size rw_offset file_size : Nat) :
    List FlashEvent :=
  erase_loop_trace erase_block_size
    (erase_begin_addr rw_offset (erase_block_size <<< 10))
    (erase_end_addr rw_offset file_size (erase_block_size <<< 10))
    (erase_block_size <<< 10)

/-- One observable step of flash_wait from ecpprog.c: a poll of Status
Register 1 (the value of data[1] after the RSR1 xfer) or the usleep(1000)
that separates the polls. -/
inductive WaitEvent
  | poll (sr1 : Nat)
  | sleep_us (us : Nat)
  deriving DecidableEq, Repr

/-- flash_wait from ecpprog.c, with the successive SR1 poll responses supplied
as a list: returns the number of polls consumed until the loop breaks, or
none when the list is exhausted first (the C loop would keep polling).  The
loop breaks on a poll with (data[1] & 0x01) == 0 when count has already
reached 2; an idle poll below that increments count, a busy poll resets
count to 0. -/
def flash_wait_polls (polls : List Nat) (count : Nat) : Option Nat :=
  match polls with
  | [] => none
  | b :: rest =>
    if b &&& 0x01 = 0 then
      if count < 2 then
        (flash_wait_polls rest (count + 1)).map (· + 1)
      else
        some 1
    else
      (flash_wait_polls rest 0).map (· + 1)

/-- The event trace of flash_wait: each iteration polls SR1 and, unless it
breaks out of the loop, sleeps 1000 microseconds before the next poll. -/
def flash_wait_trace (polls : List Nat) (count : Nat) : List WaitEvent :=
  match polls with
  | [] => []
  | b :: rest =>
    if b &&& 0x01 = 0 then
      if count < 2 then
        .poll b :: .sleep_us 1000 :: flash_wait_trace rest (count + 1)
      else
        [.poll b]
    else
      .poll b :: .sleep_us 1000 :: flash_wait_trace rest 0

/-- Helper for stating normal forms: the chunks a repeated
fread(buffer, 1, k, f) loop obtains from a regular file, in order (every
chunk is full except possibly the last). -/
def chunks (k : Nat) (l : List Nat) : List (List Nat) :=
  if l = [] ∨ k = 0 then
    []
  else
    l.take k :: chunks k (l.drop k)
termination_by l.length
decreasing_by
  rename_i h
  simp only [not_or] at h
  have : l.length ≠ 0 := by
    simpa [List.length_eq_zero] using h.1
  simp only [List.length_drop]
  omega

/-- The bytes flash_continue_read obtains from the flash read stream:
positions start..start+len-1 of the stream opened by flash_start_read
(the stream contents are a parameter of the model). -/
def flash_chunk (flash : Nat → Nat) (start len : Nat) : List Nat :=
  (List.range len).map fun j => flash (start + j)

/-- The verify pass of ecpprog_main (ecpprog.c lines 1291-1308), with the
flash read stream supplied as a function from stream position to byte:
per iteration, rc = fread(buffer_file, 1, 4096, f) (min of 4096 and the
bytes left, loop breaks at 0), flash_continue_read(buffer_flash, rc), and a
memcmp of the two buffers over rc bytes.  On a difference the source calls
jtag_error(3).  Modelled from the spec: jtag_error belongs to the JTAG
module absent from the sources; per spec sections 4.F and 7 a verify
mismatch exits the process with code 3, so the loop does not continue.
Returns the number of chunk comparisons performed and some 3 on mismatch
(none when every chunk compared equal). -/
def verify_loop (file : List Nat) (flash : Nat → Nat) (pos : Nat) :
    Nat × Option Nat :=
  if h : file = [] then
    (0, none)
  else
    let rc := (file.take 4096).length
    if file.take 4096 = flash_chunk flash pos rc then
      let r := verify_loop (file.drop 4096) flash (pos + rc)
      (r.1 + 1, r.2)
    else
      (1, some 3)
termination_by file.length
decreasing_by
  have : file.length ≠ 0 := by
    simpa [List.length_eq_zero] using h
  simp only [List.length_drop]
  omega

/-- The bitstream streaming loop of SRAM program mode (ecpprog.c lines
1157-1172): read up to 16384 bytes, bit-reverse them, go to Capture-DR and
shift rc * 8 bits with advance = false; repeat until fread returns 0. -/
def prog_sram_stream (file : List Nat) : List JEvent :=
  if h : file = [] then
    []
  else
    .goToState .CAPTURE_DR ::
      .tapShift ((file.take 16384).map bit_reverse) ((file.take 16384).length * 8) false ::
      prog_sram_stream (file.drop 16384)
termination_by file.length
decreasing_by
  have : file.length ≠ 0 := by
    simpa [List.length_eq_zero] using h
  simp only [List.length_drop]
  omega

/-- The JTAG trace of SRAM program mode (ecpprog.c lines 1138-1176):
ISC_ENABLE, ISC_ERASE, LSC_RESET_CRC, a status read, LSC_BITSTREAM_BURST,
the streaming loop, then ISC_DISABLE and a final status read. -/
def prog_sram_trace (t : device_type) (file : List Nat) : List JEvent :=
  ecp_jtag_cmd8 ISC_ENABLE 0 ++ ecp_jtag_cmd8 ISC_ERASE 0 ++
    ecp_jtag_cmd8 LSC_RESET_CRC 0 ++
    read_status_register_events t ++
    ecp_jtag_cmd LSC_BITSTREAM_BURST ++
    prog_sram_stream file ++
    ecp_jtag_cmd ISC_DISABLE ++
    read_status_register_events t

/-- The vendor JTAG trace and exit code of test mode (-t) in ecpprog_main
(ecpprog.c lines 1116-1137 and 1327): after jtag_init, read_idcode and
read_status_register run unconditionally (whatever the IDCODE lookup
produced), then ISC_ENABLE, a 10 ms sleep, ISC_ERASE, a 10 ms sleep,
ISC_DISABLE, and SPI background mode entry; the function falls through to
return 0.  The SPI flash traffic that follows (flash_reset, flash_read_id,
flash_read_status) is below the JTAG-command granularity of this trace. -/
def ecpprog_test_mode (ecp_devices nx_devices : List device_id_pair)
    (idcode : Nat) : List JEvent × Nat :=
  let info := print_idcode ecp_devices nx_devices idcode
  ( read_idcode_events ++
      read_status_register_events info.type ++
      ecp_jtag_cmd8 ISC_ENABLE 0 ++ [.sleepUs 10000] ++
      ecp_jtag_cmd8 ISC_ERASE 0 ++ [.sleepUs 10000] ++
      ecp_jtag_cmd ISC_DISABLE ++
      enter_spi_background_mode_events,
    0 )

/-- Result of one ftdi_read_data call inside the receive loop of mpsse_xfer:
a negative return (err) or a chunk of received bytes (chunk, possibly fewer
than requested; an empty chunk models rc = 0). -/
inductive FtdiRead
  | err
  | chunk (bytes : List Nat)
  deriving DecidableEq, Repr

/-- Overwrite of a byte buffer: the received bytes land at data_buffer +
rx_len, the rest of the buffer is untouched. -/
def buf_write (buf : List Nat) (pos : Nat) (bs : List Nat) : List Nat :=
  buf.take pos ++ bs ++ buf.drop (pos + bs.length)

/-- The receive loop of mpsse_xfer (mpsse.c lines 135-149): while rx_len is
short of receive_length, call ftdi_read_data; a negative return calls
mpsse_error(2) and returns, otherwise the bytes are appended at rx_len.
The successive ftdi_read_data outcomes are supplied as a list; none is
returned when they run out before the loop is satisfied (the C loop would
keep calling).  The result is (mpsse_error_last, data_buffer) on return. -/
def mpsse_read_loop (buf : List Nat) (rx_len receive_length : Nat)
    (reads : List FtdiRead) (error_last : Nat) : Option (Nat × List Nat) :=
  if rx_len = receive_length then
    some (error_last, buf)
  else
    match reads with
    | [] => none
    | .err :: _ => some (2, buf)
    | .chunk bs :: rest =>
      mpsse_read_loop (buf_write buf rx_len bs) (rx_len + bs.length)
        receive_length rest error_last

/-- mpsse_xfer from mpsse.c (lines 121-150): if mpsse_error_last is already
nonzero the call returns immediately (no ftdi traffic, buffer untouched);
otherwise the send of send_length bytes happens (write_ok says whether
ftdi_write_data returned the full count; a short write calls mpsse_error(2)
and returns), then the receive loop runs when receive_length is nonzero.
The result is (mpsse_error_last, data_buffer) on return. -/
def mpsse_xfer (error_last : Nat) (buf : List Nat)
    (send_length receive_length : Nat) (write_ok : Bool)
    (reads : List FtdiRead) : Option (Nat × List Nat) :=
  if error_last ≠ 0 then
    some (error_last, buf)
  else if send_length ≠ 0 ∧ write_ok = false then
    some (2, buf)
  else if receive_length ≠ 0 then
    mpsse_read_loop buf 0 receive_length reads error_last
  else
    some (error_last, buf)

/-- Result of one single-byte ftdi_read_data call inside mpsse_recv_byte:
negative return (err), nothing available yet (again, rc = 0, the loop sleeps
100 us and retries), or one byte. -/
inductive FtdiRead1
  | err
  | again
  | byte (b : Nat)
  deriving DecidableEq, Repr

/-- mpsse_recv_byte from mpsse.c (lines 93-108): poll ftdi_read_data for one
byte; a negative return calls mpsse_error(2) and returns 0 to the caller.
Returns (mpsse_error_last, byte) or none when the supplied outcomes run
out. -/
def mpsse_recv_byte (error_last : Nat) (reads : List FtdiRead1) :
    Option (Nat × Nat) :=
  match reads with
  | [] => none
  | .err :: _ => some (2, 0)
  | .again :: rest => mpsse_recv_byte error_last rest
  | .byte b :: _ => some (error_last, b)

/-- mpsse_send_byte from mpsse.c (lines 110-118): a single-byte
ftdi_write_data; a short return calls mpsse_error(2).  Returns the new
mpsse_error_last. -/
def mpsse_send_byte (error_last : Nat) (write_ok : Bool) : Nat :=
  if write_ok then error_last else 2

/-! Arithmetic helper lemmas about the bit operations the source uses. -/

theorem shiftLeft_lor_eq_add (a b k : Nat) (hb : b < 2 ^ k) :
    (a <<< k) ||| b = a * 2 ^ k + b := by
  apply Nat.eq_of_testBit_eq
  intro i
  rw [Nat.testBit_lor, Nat.testBit_shiftLeft, Nat.mul_comm a (2 ^ k),
    Nat.testBit_mul_pow_two_add a hb i]
  rcases Nat.lt_or_ge i k with h | h
  · simp [h, Nat.not_le.mpr h]
  · have hbi : b.testBit i = false :=
      Nat.testBit_lt_two_pow (lt_of_lt_of_le hb (Nat.pow_le_pow_right (by norm_num) h))
    simp [h, Nat.not_lt.mpr h, hbi, ge_iff_le]

theorem lor_eq_add_of_lt (a b k : Nat) (ha : a % 2 ^ k = 0) (hb : b < 2 ^ k) :
    a ||| b = a + b := by
  have h : a / 2 ^ k * 2 ^ k = a := Nat.div_mul_cancel (Nat.dvd_of_mod_eq_zero ha)
  calc a ||| b = (a / 2 ^ k) <<< k ||| b := by rw [Nat.shiftLeft_eq, h]
    _ = a / 2 ^ k * 2 ^ k + b := shiftLeft_lor_eq_add _ _ _ hb
    _ = a + b := by rw [h]

theorem ldiff_two_pow_sub_one (x k : Nat) :
    Nat.ldiff x (2 ^ k - 1) = x / 2 ^ k * 2 ^ k := by
  apply Nat.eq_of_testBit_eq
  intro i
  rw [Nat.testBit_ldiff, Nat.testBit_two_pow_sub_one,
    show x / 2 ^ k * 2 ^ k = (x >>> k) <<< k by
      rw [Nat.shiftRight_eq_div_pow, Nat.shiftLeft_eq],
    Nat.testBit_shiftLeft, Nat.testBit_shiftRight]
  rcases Nat.lt_or_ge i k with h | h
  · simp [h, Nat.not_le.mpr h]
  · have hik : k + (i - k) = i := by omega
    simp [hik, Nat.not_lt.mpr h, h, ge_iff_le]

theorem idcode_step_eq (id b : Nat) (hb : b < 256) (hid : id < 2 ^ 32) :
    idcode_step id b = b * 2 ^ 24 + id / 2 ^ 8 := by
  unfold idcode_step
  rw [Nat.shiftRight_eq_div_pow,
    shiftLeft_lor_eq_add b (id / 2 ^ 8) 24 (by omega)]
  exact Nat.mod_eq_of_lt (by omega)

theorem status64_step_eq (st b : Nat) (hb : b < 256) (hst : st < 2 ^ 64) :
    status64_step st b = b * 2 ^ 56 + st / 2 ^ 8 := by
  unfold status64_step
  rw [Nat.shiftRight_eq_div_pow,
    shiftLeft_lor_eq_add b (st / 2 ^ 8) 56 (by omega)]
  exact Nat.mod_eq_of_lt (by omega)

theorem format_u32_lt (data : List Nat) : format_u32 data < 2 ^ 32 := by
  suffices h : ∀ (l : List Nat) (id : Nat), id < 2 ^ 32 → l.foldl idcode_step id < 2 ^ 32 by
    exact h data 0 (by norm_num)
  intro l
  induction l with
  | nil => intro id hid; simpa using hid
  | cons b rest ih =>
    intro id _
    exact ih (idcode_step id b) (Nat.mod_lt _ (by norm_num))

theorem format_u64_lt (data : List Nat) : format_u64 data < 2 ^ 64 := by
  suffices h : ∀ (l : List Nat) (id : Nat), id < 2 ^ 64 → l.foldl status64_step id < 2 ^ 64 by
    exact h data 0 (by norm_num)
  intro l
  induction l with
  | nil => intro id hid; simpa using hid
  | cons b rest ih =>
    intro id _
    exact ih (status64_step id b) (Nat.mod_lt _ (by norm_num))

theorem format_u32_bytes (b0 b1 b2 b3 : Nat) (h0 : b0 < 256) (h1 : b1 < 256)
    (h2 : b2 < 256) (h3 : b3 < 256) :
    format_u32 [b0, b1, b2, b3] = b3 * 2 ^ 24 + b2 * 2 ^ 16 + b1 * 2 ^ 8 + b0 := by
  simp only [format_u32, List.foldl]
  rw [idcode_step_eq 0 b0 h0 (by norm_num)]
  rw [idcode_step_eq _ b1 h1 (by omega)]
  rw [idcode_step_eq _ b2 h2 (by omega)]
  rw [idcode_step_eq _ b3 h3 (by omega)]
  omega

theorem bytes_lor_eq (b0 b1 b2 b3 : Nat) (h0 : b0 < 256) (h1 : b1 < 256)
    (h2 : b2 < 256) (h3 : b3 < 256) :
    (b3 <<< 24) ||| (b2 <<< 16) ||| (b1 <<< 8) ||| b0
      = b3 * 2 ^ 24 + b2 * 2 ^ 16 + b1 * 2 ^ 8 + b0 := by
  rw [show b2 <<< 16 = b2 * 2 ^ 16 from Nat.shiftLeft_eq b2 16,
    show b1 <<< 8 = b1 * 2 ^ 8 from Nat.shiftLeft_eq b1 8,
    shiftLeft_lor_eq_add b3 (b2 * 2 ^ 16) 24 (by omega),
    lor_eq_add_of_lt _ (b1 * 2 ^ 8) 16 (by omega) (by omega),
    lor_eq_add_of_lt _ b0 8 (by omega) (by omega)]

/-! Lemmas about the programming loop (claim C2). -/

theorem prog_loop_calls_mem_lt (off len : Nat) :
    ∀ a, ∀ c ∈ prog_loop_calls off len a, a < len := by
  refine prog_loop_calls.induct off len
    (fun a => ∀ c ∈ prog_loop_calls off len a, a < len) ?_ ?_
  · intro x p rc h
    rw [prog_loop_calls]
    intro c hc
    simp only [dif_pos h] at hc
    exact absurd hc (List.not_mem_nil c)
  · intro x p rc h ih
    rw [prog_loop_calls]
    intro c hc
    simp only [dif_neg h] at hc
    rcases List.mem_cons.mp hc with rfl | hc2
    · simp only [p, rc] at h
      omega
    · have := ih c hc2
      omega

theorem prog_loop_calls_head (off len a : Nat) (c : Nat × Nat)
    (rest : List (Nat × Nat)) (h : prog_loop_calls off len a = c :: rest) :
    c.1 = off + a := by
  rw [prog_loop_calls] at h
  split at h
  · exact absurd h (by simp)
  · rw [List.cons.injEq] at h
    obtain ⟨h1, -⟩ := h
    rw [← h1]

theorem prog_loop_calls_cover (off len : Nat) :
    ∀ a, ((prog_loop_calls off len a).flatMap fun c => List.range' c.1 c.2)
      = List.range' (off + a) (len - a) := by
  refine prog_loop_calls.induct off len
    (fun a => ((prog_loop_calls off len a).flatMap fun c => List.range' c.1 c.2)
      = List.range' (off + a) (len - a)) ?_ ?_
  · intro x p rc h
    rw [prog_loop_calls]
    simp only [dif_pos h, List.flatMap_nil]
    simp only [p, rc] at h
    have hz : len - x = 0 := by omega
    rw [hz, List.range'_zero]
  · intro x p rc h ih
    rw [prog_loop_calls]
    simp only [dif_neg h, List.flatMap_cons]
    rw [ih]
    simp only [p, rc] at h ⊢
    rw [← Nat.add_assoc, List.range'_append_1]
    congr 1
    omega

theorem prog_loop_calls_mem_spec (off len : Nat) :
    ∀ a, ∀ c ∈ prog_loop_calls off len a,
      0 < c.2 ∧ c.1 % 256 + c.2 ≤ 256
        ∧ c.2 = min (256 - c.1 % 256) (off + len - c.1)
        ∧ (c.1 = off + a ∨ c.1 % 256 = 0) := by
  refine prog_loop_calls.induct off len
    (fun a => ∀ c ∈ prog_loop_calls off len a,
      0 < c.2 ∧ c.1 % 256 + c.2 ≤ 256
        ∧ c.2 = min (256 - c.1 % 256) (off + len - c.1)
        ∧ (c.1 = off + a ∨ c.1 % 256 = 0)) ?_ ?_
  · intro x p rc h
    rw [prog_loop_calls]
    intro c hc
    simp only [dif_pos h] at hc
    exact absurd hc (List.not_mem_nil c)
  · intro x p rc h ih
    rw [prog_loop_calls]
    intro c hc
    simp only [dif_neg h] at hc
    rcases List.mem_cons.mp hc with rfl | hc2
    · simp only [p, rc] at h ⊢
      refine ⟨by omega, by omega, by omega, Or.inl (by trivial)⟩
    · have hlt : x + rc < len := prog_loop_calls_mem_lt off len (x + rc) c hc2
      obtain ⟨h1, h2, h3, h4⟩ := ih c hc2
      refine ⟨h1, h2, h3, Or.inr ?_⟩
      rcases h4 with h4 | h4
      · rw [h4]
        simp only [p, rc] at h hlt ⊢
        omega
      · exact h4

theorem prog_loop_calls_chain (off len : Nat) :
    ∀ a, List.Chain' (fun c d => d.1 = c.1 + c.2 ∧ c.2 = 256 - c.1 % 256)
      (prog_loop_calls off len a) := by
  refine prog_loop_calls.induct off len
    (fun a => List.Chain' (fun c d => d.1 = c.1 + c.2 ∧ c.2 = 256 - c.1 % 256)
      (prog_loop_calls off len a)) ?_ ?_
  · intro x p rc h
    rw [prog_loop_calls]
    simp only [dif_pos h]
    exact List.chain'_nil
  · intro x p rc h ih
    rw [prog_loop_calls]
    simp only [dif_neg h]
    simp only [p, rc] at h ih ⊢
    cases hh : prog_loop_calls off len (x + (256 - (off + x) % 256) ⊓ (len - x)) with
    | nil =>
      exact List.chain'_singleton _
    | cons e rest =>
      rw [hh] at ih
      rw [List.chain'_cons]
      have he1 : e.1 = off + (x + (256 - (off + x) % 256) ⊓ (len - x)) :=
        prog_loop_calls_head off len _ e rest hh
      have hlt : x + (256 - (off + x) % 256) ⊓ (len - x) < len :=
        prog_loop_calls_mem_lt off len _ e (hh ▸ List.mem_cons_self e rest)
      refine ⟨⟨by rw [he1]; omega, ?_⟩, ih⟩
      omega

theorem prog_loop_trace_eq (off len : Nat) :
    ∀ a, prog_loop_trace off len a = (prog_loop_calls off len a).flatMap
      fun c => [.write_enable, .page_prog c.1 c.2, .wait_busy] := by
  refine prog_loop_calls.induct off len
    (fun a => prog_loop_trace off len a = (prog_loop_calls off len a).flatMap
      fun c => [.write_enable, .page_prog c.1 c.2, .wait_busy]) ?_ ?_
  · intro x p rc h
    rw [prog_loop_trace, prog_loop_calls]
    simp only [dif_pos h, List.flatMap_nil]
  · intro x p rc h ih
    rw [prog_loop_trace, prog_loop_calls]
    simp only [dif_neg h, List.flatMap_cons]
    rw [ih]
    rfl

/-! Lemmas about the block-erase pass (claim C3). -/

theorem erase_range_spec (k off len : Nat) :
    erase_begin_addr off (2 ^ k) ≤ off
    ∧ off + len ≤ erase_end_addr off len (2 ^ k)
    ∧ 2 ^ k ∣ erase_begin_addr off (2 ^ k)
    ∧ 2 ^ k ∣ erase_end_addr off len (2 ^ k)
    ∧ ∀ b2 e2, 2 ^ k ∣ b2 → 2 ^ k ∣ e2 → b2 ≤ off → off + len ≤ e2 →
        erase_end_addr off len (2 ^ k) - erase_begin_addr off (2 ^ k)
          ≤ e2 - b2 := by
  unfold erase_begin_addr erase_end_addr
  rw [ldiff_two_pow_sub_one, ldiff_two_pow_sub_one]
  have hBpos : 0 < 2 ^ k := Nat.two_pow_pos k
  have hq := Nat.div_add_mod (off + len + (2 ^ k - 1)) (2 ^ k)
  have hr := Nat.mod_lt (off + len + (2 ^ k - 1)) hBpos
  have hB1 : 2 ^ k - 1 + 1 = 2 ^ k := Nat.succ_pred_eq_of_pos hBpos
  refine ⟨Nat.div_mul_le_self off (2 ^ k), ?_, ?_, ?_, ?_⟩
  · rw [Nat.mul_comm]
    linarith
  · exact dvd_mul_left (2 ^ k) (off / 2 ^ k)
  · exact dvd_mul_left (2 ^ k) ((off + len + (2 ^ k - 1)) / 2 ^ k)
  · rintro b2 e2 ⟨m, rfl⟩ ⟨n, rfl⟩ hble hxe
    have hbegin : 2 ^ k * m ≤ off / 2 ^ k * 2 ^ k := by
      rw [Nat.mul_comm (off / 2 ^ k) (2 ^ k)]
      refine Nat.mul_le_mul_left (2 ^ k) ?_
      exact (Nat.le_div_iff_mul_le hBpos).mpr (by linarith)
    have hend : (off + len + (2 ^ k - 1)) / 2 ^ k * 2 ^ k ≤ 2 ^ k * n := by
      rw [Nat.mul_comm]
      refine Nat.mul_le_mul_left (2 ^ k) ?_
      rw [Nat.div_le_iff_le_mul_add_pred hBpos]
      linarith
    exact tsub_le_tsub hend hbegin

theorem erase_loop_trace_blocks (ebs bs : Nat) (hbs : 0 < bs) :
    ∀ n a, erase_loop_trace ebs a (a + bs * n) bs
      = (List.range' a n bs).flatMap
          fun x => .write_enable :: (erase_cmd ebs x ++ [.wait_busy]) := by
  intro n
  induction n with
  | zero =>
    intro a
    rw [erase_loop_trace]
    simp
  | succ m ih =>
    intro a
    rw [erase_loop_trace]
    have hc : a < a + bs * (m + 1) ∧ 0 < bs :=
      ⟨Nat.lt_add_of_pos_right (Nat.mul_pos hbs (Nat.succ_pos m)), hbs⟩
    rw [dif_pos hc, List.range'_succ, List.flatMap_cons]
    have harg : a + bs * (m + 1) = (a + bs) + bs * m := by ring
    rw [harg, ih (a + bs)]
    simp [List.append_assoc]

/-! Lemmas about flash_wait (claim C5). -/

theorem flash_wait_polls_pos (polls : List Nat) :
    ∀ count n, flash_wait_polls polls count = some n →
      1 ≤ n ∧ n ≤ polls.length := by
  induction polls with
  | nil =>
    intro count n h
    exact absurd h (by simp [flash_wait_polls])
  | cons b rest ih =>
    intro count n h
    simp only [flash_wait_polls] at h
    by_cases hb : b &&& 0x01 = 0
    · rw [if_pos hb] at h
      by_cases hlt : count < 2
      · rw [if_pos hlt, Option.map_eq_some'] at h
        obtain ⟨n', hn', heq⟩ := h
        have := ih (count + 1) n' hn'
        simp only [List.length_cons]
        omega
      · rw [if_neg hlt, Option.some.injEq] at h
        simp only [List.length_cons]
        omega
    · rw [if_neg hb, Option.map_eq_some'] at h
      obtain ⟨n', hn', heq⟩ := h
      have := ih 0 n' hn'
      simp only [List.length_cons]
      omega

theorem flash_wait_polls_sound (polls : List Nat) :
    ∀ count n, count ≤ 2 → flash_wait_polls polls count = some n →
      3 ≤ n + count ∧ n ≤ polls.length
      ∧ (∀ j, n - 3 ≤ j → j < n → (polls.getD j 1) &&& 1 = 0)
      ∧ (∀ m, m < n →
          ¬ (3 ≤ m + count
             ∧ ∀ j, m - 3 ≤ j → j < m → (polls.getD j 1) &&& 1 = 0)) := by
  induction polls with
  | nil =>
    intro count n _ h
    exact absurd h (by simp [flash_wait_polls])
  | cons b rest ih =>
    intro count n hcount h
    simp only [flash_wait_polls] at h
    by_cases hb : b &&& 0x01 = 0
    · rw [if_pos hb] at h
      by_cases hlt : count < 2
      · rw [if_pos hlt, Option.map_eq_some'] at h
        obtain ⟨n', hn', heq⟩ := h
        obtain ⟨h1, h2, h3, h4⟩ := ih (count + 1) n' (by omega) hn'
        have hpos := (flash_wait_polls_pos rest (count + 1) n' hn').1
        refine ⟨by omega, by simp only [List.length_cons]; omega, ?_, ?_⟩
        · intro j hj1 hj2
          rcases Nat.eq_zero_or_pos j with rfl | hjpos
          · simpa using hb
          · rw [show j = (j - 1) + 1 by omega, List.getD_cons_succ]
            exact h3 (j - 1) (by omega) (by omega)
        · rintro m hm ⟨hm3, hmw⟩
          rcases Nat.eq_zero_or_pos m with rfl | hmpos
          · omega
          · refine h4 (m - 1) (by omega) ⟨by omega, ?_⟩
            intro j hj1 hj2
            have := hmw (j + 1) (by omega) (by omega)
            rwa [List.getD_cons_succ] at this
      · rw [if_neg hlt, Option.some.injEq] at h
        subst h
        refine ⟨by omega, by simp only [List.length_cons]; omega, ?_, ?_⟩
        · intro j hj1 hj2
          have hj : j = 0 := by omega
          subst hj
          simpa using hb
        · rintro m hm ⟨hm3, -⟩
          omega
    · rw [if_neg hb, Option.map_eq_some'] at h
      obtain ⟨n', hn', heq⟩ := h
      obtain ⟨h1, h2, h3, h4⟩ := ih 0 n' (by omega) hn'
      refine ⟨by omega, by simp only [List.length_cons]; omega, ?_, ?_⟩
      · intro j hj1 hj2
        have hjpos : 1 ≤ j := by omega
        rw [show j = (j - 1) + 1 by omega, List.getD_cons_succ]
        exact h3 (j - 1) (by omega) (by omega)
      · rintro m hm ⟨hm3, hmw⟩
        rcases Nat.eq_zero_or_pos m with rfl | hmpos
        · omega
        · by_cases hm4 : m < 4
          · have h0 := hmw 0 (by omega) (by omega)
            rw [List.getD_cons_zero] at h0
            exact hb h0
          · refine h4 (m - 1) (by omega) ⟨by omega, ?_⟩
            intro j hj1 hj2
            have := hmw (j + 1) (by omega) (by omega)
            rwa [List.getD_cons_succ] at this

theorem flash_wait_trace_spacing (polls : List Nat) :
    ∀ count n, flash_wait_polls polls count = some n →
      flash_wait_trace polls count
        = List.intersperse (.sleep_us 1000) ((polls.take n).map .poll) := by
  induction polls with
  | nil =>
    intro count n h
    exact absurd h (by simp [flash_wait_polls])
  | cons b rest ih =>
    intro count n h
    simp only [flash_wait_polls] at h
    rw [flash_wait_trace]
    by_cases hb : b &&& 0x01 = 0
    · rw [if_pos hb] at h ⊢
      by_cases hlt : count < 2
      · rw [if_pos hlt, Option.map_eq_some'] at h
        rw [if_pos hlt]
        obtain ⟨n', hn', heq⟩ := h
        obtain ⟨hp1, hp2⟩ := flash_wait_polls_pos rest (count + 1) n' hn'
        rw [ih (count + 1) n' hn']
        rw [show n = n' + 1 by omega, List.take_succ_cons, List.map_cons]
        cases ht : rest.take n' with
        | nil =>
          have : (rest.take n').length = n' := by
            rw [List.length_take]
            omega
          rw [ht] at this
          simp at this
          omega
        | cons c cs =>
          rw [List.map_cons, List.intersperse_cons_cons]
      · rw [if_neg hlt, Option.some.injEq] at h
        rw [if_neg hlt]
        rw [show n = 1 by omega]
        simp [List.intersperse_singleton]
    · rw [if_neg hb] at h ⊢
      rw [Option.map_eq_some'] at h
      obtain ⟨n', hn', heq⟩ := h
      obtain ⟨hp1, hp2⟩ := flash_wait_polls_pos rest 0 n' hn'
      rw [ih 0 n' hn']
      rw [show n = n' + 1 by omega, List.take_succ_cons, List.map_cons]
      cases ht : rest.take n' with
      | nil =>
        have : (rest.take n').length = n' := by
          rw [List.length_take]
          omega
        rw [ht] at this
        simp at this
        omega
      | cons c cs =>
        rw [List.map_cons, List.intersperse_cons_cons]

/-! Lemmas about the fread chunking and the SRAM streaming loop (claim C6). -/

theorem chunks_flatten (k : Nat) (hk : 0 < k) :
    ∀ l, (chunks k l).flatten = l := by
  refine chunks.induct k (fun l => (chunks k l).flatten = l) ?_ ?_
  · intro l h
    rcases h with h | h
    · rw [chunks]
      simp [h]
    · omega
  · intro l h ih
    rw [chunks]
    rw [if_neg h]
    rw [List.flatten_cons, ih, List.take_append_drop]

theorem chunks_mem (k : Nat) :
    ∀ l, ∀ c ∈ chunks k l, c ≠ [] ∧ c.length ≤ k := by
  refine chunks.induct k (fun l => ∀ c ∈ chunks k l, c ≠ [] ∧ c.length ≤ k) ?_ ?_
  · intro l h c hc
    rw [chunks, if_pos h] at hc
    exact absurd hc (List.not_mem_nil c)
  · intro l h ih c hc
    rw [chunks, if_neg h] at hc
    simp only [not_or] at h
    rcases List.mem_cons.mp hc with rfl | hc2
    · constructor
      · simp only [ne_eq, List.take_eq_nil_iff, not_or]
        exact ⟨h.2, h.1⟩
      · simp only [List.length_take]
        omega
    · exact ih c hc2

theorem chunks_nil (k : Nat) : chunks k [] = [] := by
  rw [chunks]
  simp

theorem chunks_full (k : Nat) :
    ∀ l, ∀ i, i + 1 < (chunks k l).length → ((chunks k l).getD i []).length = k := by
  refine chunks.induct k
    (fun l => ∀ i, i + 1 < (chunks k l).length →
      ((chunks k l).getD i []).length = k) ?_ ?_
  · intro l h i hi
    rw [chunks, if_pos h] at hi
    simp at hi
  · intro l h ih i hi
    rw [chunks, if_neg h] at hi ⊢
    simp only [not_or] at h
    cases i with
    | zero =>
      simp only [List.length_cons] at hi
      have hrest : chunks k (l.drop k) ≠ [] := by
        intro hempty
        rw [hempty] at hi
        simp at hi
      have hdrop : l.drop k ≠ [] := by
        intro hd
        rw [chunks, if_pos (Or.inl hd)] at hrest
        exact hrest rfl
      have hlen : k < l.length := by
        by_contra hcon
        exact hdrop (List.drop_eq_nil_of_le (by omega))
      simp only [List.getD_cons_zero, List.length_take]
      omega
    | succ j =>
      simp only [List.getD_cons_succ]
      simp only [List.length_cons] at hi
      exact ih j (by omega)

theorem prog_sram_stream_eq :
    ∀ file, prog_sram_stream file
      = (chunks 16384 file).flatMap fun c =>
          [.goToState .CAPTURE_DR, .tapShift (c.map bit_reverse) (c.length * 8) false] := by
  refine prog_sram_stream.induct
    (fun file => prog_sram_stream file
      = (chunks 16384 file).flatMap fun c =>
          [.goToState .CAPTURE_DR, .tapShift (c.map bit_reverse) (c.length * 8) false]) ?_ ?_
  · show prog_sram_stream [] = (chunks 16384 []).flatMap _
    rw [prog_sram_stream, chunks]
    simp
  · intro file h ih
    rw [prog_sram_stream, chunks]
    rw [dif_neg h, if_neg (by simp [h])]
    rw [List.flatMap_cons, ih]
    rfl

/-- The advance flags of the tapShift events of a JTAG trace, in order. -/
def shift_advance_flags (es : List JEvent) : List Bool :=
  es.filterMap fun e =>
    match e with
    | .tapShift _ _ adv => some adv
    | _ => none

/-! The verify pass (claim C9). -/

/-- C9: the verify pass consumes the file in 4 KiB chunks and compares each
against the flash read-back stream; at the first chunk where they differ the
run exits with code 3 (jtag_error(3), modelled from the spec) after exactly
that comparison — no later chunk is compared.  The result pair is the number
of chunk comparisons performed and the exit code. -/
theorem verify_loop_stops_at_first_mismatch :
    ∀ (file : List Nat) (flash : Nat → Nat) (pos : Nat), ∀ i : Nat,
      (∀ j, j < i → (chunks 4096 file).getD j []
          = flash_chunk flash (pos + 4096 * j) ((chunks 4096 file).getD j []).length) →
      i < (chunks 4096 file).length →
      (chunks 4096 file).getD i []
          ≠ flash_chunk flash (pos + 4096 * i) ((chunks 4096 file).getD i []).length →
      verify_loop file flash pos = (i + 1, some 3) := by
  refine verify_loop.induct
    (fun file flash pos => ∀ i : Nat,
      (∀ j, j < i → (chunks 4096 file).getD j []
          = flash_chunk flash (pos + 4096 * j) ((chunks 4096 file).getD j []).length) →
      i < (chunks 4096 file).length →
      (chunks 4096 file).getD i []
          ≠ flash_chunk flash (pos + 4096 * i) ((chunks 4096 file).getD i []).length →
      verify_loop file flash pos = (i + 1, some 3)) ?_ ?_ ?_
  · intro flash pos i hpre hi hmis
    rw [chunks_nil] at hi
    simp at hi
  · intro file flash pos hne0 rc hhead ih i hpre hi hmis
    have hchunks : chunks 4096 file
        = file.take 4096 :: chunks 4096 (file.drop 4096) := by
      rw [chunks, if_neg (by simp [hne0])]
    rw [verify_loop, dif_neg hne0, if_pos hhead]
    rcases Nat.eq_zero_or_pos i with rfl | hipos
    · exfalso
      apply hmis
      rw [hchunks]
      simp only [List.getD_cons_zero, Nat.mul_zero, Nat.add_zero]
      have hh := hhead
      simp only [rc] at hh
      exact hh
    · have hfull : ((chunks 4096 file).getD 0 []).length = 4096 :=
        chunks_full 4096 file 0 (by omega)
      have hlen4096 : 4096 ≤ file.length := by
        rw [hchunks] at hfull
        simpa using hfull
      have hrc : rc = 4096 := by
        simp only [rc, List.length_take]
        omega
      have ihs := ih (i - 1)
        (by
          intro j hj
          have := hpre (j + 1) (by omega)
          rw [hchunks] at this
          simp only [List.getD_cons_succ] at this
          rw [show pos + rc + 4096 * j = pos + 4096 * (j + 1) by rw [hrc]; ring]
          exact this)
        (by
          rw [hchunks] at hi
          simp only [List.length_cons] at hi
          omega)
        (by
          have := hmis
          rw [hchunks] at this
          rw [show i = (i - 1) + 1 by omega] at this
          simp only [List.getD_cons_succ] at this
          rw [show pos + rc + 4096 * (i - 1) = pos + 4096 * ((i - 1) + 1) by rw [hrc]; ring]
          exact this)
      rw [ihs, show i - 1 + 1 = i from by omega]
  · intro file flash pos hne0 rc hneq i hpre hi hmis
    have hchunks : chunks 4096 file
        = file.take 4096 :: chunks 4096 (file.drop 4096) := by
      rw [chunks, if_neg (by simp [hne0])]
    rw [verify_loop, dif_neg hne0, if_neg hneq]
    rcases Nat.eq_zero_or_pos i with rfl | hipos
    · rfl
    · exfalso
      have h0 := hpre 0 (by omega)
      rw [hchunks] at h0
      simp only [List.getD_cons_zero, Nat.mul_zero, Nat.add_zero] at h0
      apply hneq
      simp only [rc]
      exact h0

theorem erase_pass_trace_eq (ebs off len k : Nat) (hk : ebs <<< 10 = 2 ^ k) :
    erase_pass_trace ebs off len
      = (List.range' (erase_begin_addr off (ebs <<< 10))
          ((erase_end_addr off len (ebs <<< 10)
            - erase_begin_addr off (ebs <<< 10)) / (ebs <<< 10))
          (ebs <<< 10)).flatMap
          fun a => .write_enable :: (erase_cmd ebs a ++ [.wait_busy]) := by
  obtain ⟨s1, s2, s3, s4, -⟩ := erase_range_spec k off len
  rw [erase_pass_trace, hk]
  have hble : erase_begin_addr off (2 ^ k) ≤ erase_end_addr off len (2 ^ k) :=
    le_trans s1 (le_trans (Nat.le_add_right off len) s2)
  have hdvd : 2 ^ k ∣ (erase_end_addr off len (2 ^ k)
      - erase_begin_addr off (2 ^ k)) := Nat.dvd_sub' s4 s3
  have he : erase_end_addr off len (2 ^ k)
      = erase_begin_addr off (2 ^ k)
        + 2 ^ k * ((erase_end_addr off len (2 ^ k)
            - erase_begin_addr off (2 ^ k)) / 2 ^ k) := by
    rw [Nat.mul_div_cancel' hdvd]
    omega
  have hblocks := erase_loop_trace_blocks ebs (2 ^ k) (Nat.two_pow_pos k)
    ((erase_end_addr off len (2 ^ k) - erase_begin_addr off (2 ^ k)) / 2 ^ k)
    (erase_begin_addr off (2 ^ k))
  rw [← he] at hblocks
  exact hblocks

/-! Claim theorems and witnesses. -/

/-- C1 (code bug evidence): with an IDCODE that matches no entry of either
device table, print_idcode leaves connected_device.type at TYPE_NONE, yet
ecpprog_main still proceeds with vendor JTAG sequences (here: test mode
shifts ISC_ENABLE into IR after the failed lookup) and falls through to
return 0 — it does not refuse, and it does not exit with code 2. -/
theorem unknown_idcode_proceeds :
    (print_idcode [⟨"LFE5U-25F", 0x41111043⟩] [⟨"LIFCL-40", 0x010F1043⟩]
        0xDEADBEEF).type = .TYPE_NONE
    ∧ JEvent.tapShift [ISC_ENABLE] 8 true
        ∈ (ecpprog_test_mode [⟨"LFE5U-25F", 0x41111043⟩]
            [⟨"LIFCL-40", 0x010F1043⟩] 0xDEADBEEF).1
    ∧ (ecpprog_test_mode [⟨"LFE5U-25F", 0x41111043⟩]
        [⟨"LIFCL-40", 0x010F1043⟩] 0xDEADBEEF).2 = 0 := by
  refine ⟨rfl, ?_, rfl⟩
  decide

/-- C2: for every offset and length, the page-program calls of the
programming loop cover the interval [offset, offset + length) exactly once
(as an ordered flat list of addresses); every call writes at least one byte
and no call crosses a 256-byte page boundary; the size of every call is the
minimum of
the bytes left in its page and the bytes left in the file — in particular
the first call covers 256 - offset % 256 bytes whenever more data follows;
every call after the first starts on a page boundary (so the non-final ones
among them cover exactly 256 bytes); consecutive calls are contiguous and
every non-final call fills its page exactly (so the final call covers the
remainder); and the loop wraps each call in its own write-enable /
page-program / busy-wait cycle. -/
theorem prog_loop_page_split (off len : Nat) :
    ((prog_loop_calls off len 0).flatMap fun c => List.range' c.1 c.2)
        = List.range' off len
    ∧ (∀ c ∈ prog_loop_calls off len 0, 0 < c.2 ∧ c.1 % 256 + c.2 ≤ 256)
    ∧ (∀ c ∈ prog_loop_calls off len 0,
        c.2 = min (256 - c.1 % 256) (off + len - c.1))
    ∧ (∀ c ∈ prog_loop_calls off len 0, c.1 = off ∨ c.1 % 256 = 0)
    ∧ List.Chain' (fun c d => d.1 = c.1 + c.2 ∧ c.2 = 256 - c.1 % 256)
        (prog_loop_calls off len 0)
    ∧ prog_loop_trace off len 0
        = (prog_loop_calls off len 0).flatMap
            fun c => [.write_enable, .page_prog c.1 c.2, .wait_busy] := by
  have hcov := prog_loop_calls_cover off len 0
  rw [Nat.add_zero, Nat.sub_zero] at hcov
  refine ⟨hcov, ?_, ?_, ?_, prog_loop_calls_chain off len 0,
    prog_loop_trace_eq off len 0⟩
  · intro c hc
    obtain ⟨h1, h2, -, -⟩ := prog_loop_calls_mem_spec off len 0 c hc
    exact ⟨h1, h2⟩
  · intro c hc
    exact (prog_loop_calls_mem_spec off len 0 c hc).2.2.1
  · intro c hc
    have h4 := (prog_loop_calls_mem_spec off len 0 c hc).2.2.2
    rwa [Nat.add_zero] at h4

/-- C2 on the concrete input of spec scenario S2: programming 400 bytes at
offset 100 issues PP(100, 156 bytes) then PP(256, 244 bytes). -/
theorem prog_loop_page_split_witness :
    prog_loop_calls 100 400 0 = [(100, 156), (256, 244)]
    ∧ ((prog_loop_calls 100 400 0).flatMap fun c => List.range' c.1 c.2)
        = List.range' 100 400 := by
  constructor
  · rw [prog_loop_calls]
    norm_num
    rw [prog_loop_calls]
    norm_num
    rw [prog_loop_calls]
    norm_num
  · exact (prog_loop_page_split 100 400).1

/-- C3: for every offset, length and erase block size in 4, 32, 64 KiB, the
block-erase pass computes a range with begin at most offset, end at least
offset + length, both endpoints aligned to the block size and end - begin
minimal among all such aligned ranges; the loop then issues, for each
block-aligned address of the range in order, one write-enable plus one erase
command (SE for 4 KiB, BE32 for 32 KiB, BE64 for 64 KiB) followed by one
busy-wait. -/
theorem erase_pass_range (ebs off len : Nat)
    (h : ebs = 4 ∨ ebs = 32 ∨ ebs = 64) :
    erase_begin_addr off (ebs <<< 10) ≤ off
    ∧ off + len ≤ erase_end_addr off len (ebs <<< 10)
    ∧ (ebs <<< 10) ∣ erase_begin_addr off (ebs <<< 10)
    ∧ (ebs <<< 10) ∣ erase_end_addr off len (ebs <<< 10)
    ∧ (∀ b2 e2, (ebs <<< 10) ∣ b2 → (ebs <<< 10) ∣ e2 → b2 ≤ off →
        off + len ≤ e2 →
        erase_end_addr off len (ebs <<< 10) - erase_begin_addr off (ebs <<< 10)
          ≤ e2 - b2)
    ∧ erase_pass_trace ebs off len
        = (List.range' (erase_begin_addr off (ebs <<< 10))
            ((erase_end_addr off len (ebs <<< 10)
              - erase_begin_addr off (ebs <<< 10)) / (ebs <<< 10))
            (ebs <<< 10)).flatMap
            (fun a => .write_enable :: (erase_cmd ebs a ++ [.wait_busy]))
    ∧ (∀ a, erase_cmd 4 a = [.sector_erase4 a])
    ∧ (∀ a, erase_cmd 32 a = [.block_erase32 a])
    ∧ (∀ a, erase_cmd 64 a = [.block_erase64 a]) := by
  have hk : ∃ j, ebs <<< 10 = 2 ^ j := by
    rcases h with rfl | rfl | rfl
    · exact ⟨12, by norm_num [Nat.shiftLeft_eq]⟩
    · exact ⟨15, by norm_num [Nat.shiftLeft_eq]⟩
    · exact ⟨16, by norm_num [Nat.shiftLeft_eq]⟩
  obtain ⟨j, hj⟩ := hk
  obtain ⟨s1, s2, s3, s4, s5⟩ := erase_range_spec j off len
  rw [hj]
  exact ⟨s1, s2, s3, s4, s5, by rw [← hj]; exact erase_pass_trace_eq ebs off len j hj,
    fun a => rfl, fun a => rfl, fun a => rfl⟩

/-- C3 on the concrete input of spec scenario S3: erasing 10 bytes at offset
70000 with 64 KiB blocks covers exactly the range from 65536 to 131072 and
issues a single write-enable, 64 KiB block erase at 65536 and busy-wait. -/
theorem erase_pass_range_witness :
    (64 = 4 ∨ 64 = 32 ∨ (64 : Nat) = 64)
    ∧ erase_begin_addr 70000 (64 <<< 10) = 65536
    ∧ erase_end_addr 70000 10 (64 <<< 10) = 131072
    ∧ erase_pass_trace 64 70000 10
        = [.write_enable, .block_erase64 65536, .wait_busy] := by
  have hb : erase_begin_addr 70000 (64 <<< 10) = 65536 := by
    rw [show (64 <<< 10 : Nat) = 2 ^ 16 by norm_num [Nat.shiftLeft_eq],
      erase_begin_addr, ldiff_two_pow_sub_one]
    norm_num
  have he : erase_end_addr 70000 10 (64 <<< 10) = 131072 := by
    rw [show (64 <<< 10 : Nat) = 2 ^ 16 by norm_num [Nat.shiftLeft_eq],
      erase_end_addr, ldiff_two_pow_sub_one]
    norm_num
  refine ⟨by norm_num, hb, he, ?_⟩
  have htrace := (erase_pass_range 64 70000 10 (by norm_num)).2.2.2.2.2.1
  rw [htrace, hb, he]
  norm_num
  rfl

/-- C4: once a libftdi call has failed, mpsse_error has recorded a nonzero
status in mpsse_error_last: every subsequent mpsse_xfer returns immediately
with the error and the buffer unchanged (no ftdi traffic), so a receive
buffer the higher layers pre-zeroed (flash_continue_read memsets its buffer
before handing it down) comes back all zeros; a short ftdi_write_data inside
mpsse_xfer sets the sticky field to 2, as does a failed ftdi_read_data in
its receive loop; mpsse_recv_byte hands the caller a zero byte on a read
error; and no transport operation ever clears the sticky field. -/
theorem mpsse_sticky_no_op (e : Nat) (he : e ≠ 0) :
    (∀ buf sl rl w reads, mpsse_xfer e buf sl rl w reads = some (e, buf))
    ∧ (∀ n sl rl w reads, mpsse_xfer e (List.replicate n 0) sl rl w reads
        = some (e, List.replicate n 0))
    ∧ (∀ buf sl rl reads, sl ≠ 0 →
        mpsse_xfer 0 buf sl rl false reads = some (2, buf))
    ∧ (∀ buf rl rest, rl ≠ 0 →
        mpsse_xfer 0 buf 0 rl true (.err :: rest) = some (2, buf))
    ∧ (∀ reads, mpsse_recv_byte e (.err :: reads) = some (2, 0))
    ∧ (∀ w, mpsse_send_byte e w ≠ 0) := by
  refine ⟨?_, ?_, ?_, ?_, ?_, ?_⟩
  · intro buf sl rl w reads
    rw [mpsse_xfer, if_pos he]
  · intro n sl rl w reads
    rw [mpsse_xfer, if_pos he]
  · intro buf sl rl reads hsl
    rw [mpsse_xfer, if_neg (by omega), if_pos ⟨hsl, rfl⟩]
  · intro buf rl rest hrl
    rw [mpsse_xfer, if_neg (by omega), if_neg (by simp), if_pos hrl,
      mpsse_read_loop, if_neg (by omega)]
  · intro reads
    rfl
  · intro w
    rw [mpsse_send_byte]
    split
    · exact he
    · omega

/-- C4 at a concrete state: with the sticky error already set to 2, an xfer
over a four-byte zeroed buffer is a no-op that returns the zeroed buffer. -/
theorem mpsse_sticky_no_op_witness :
    (2 : Nat) ≠ 0
    ∧ mpsse_xfer 2 [0, 0, 0, 0] 1 3 true [.chunk [5, 6, 7]]
        = some (2, [0, 0, 0, 0]) :=
  ⟨by decide, ((mpsse_sticky_no_op 2 (by decide)).1 [0, 0, 0, 0] 1 3 true
    [.chunk [5, 6, 7]])⟩

/-- C5: flash_wait returns only after the busy bit (bit 0 of SR1) has been
observed clear on three consecutive polls: when the loop breaks after n
polls, n is at least 3, the last three polls all read busy = 0, no earlier
prefix of the polls ends in three consecutive busy = 0 reads (a busy poll
resets the count), and the emitted trace separates consecutive polls by
exactly one usleep(1000), i.e. about 1 ms. -/
theorem flash_wait_debounce (polls : List Nat) (n : Nat)
    (h : flash_wait_polls polls 0 = some n) :
    3 ≤ n ∧ n ≤ polls.length
    ∧ (∀ j, n - 3 ≤ j → j < n → (polls.getD j 1) &&& 1 = 0)
    ∧ (∀ m, m < n →
        ¬ (3 ≤ m ∧ ∀ j, m - 3 ≤ j → j < m → (polls.getD j 1) &&& 1 = 0))
    ∧ flash_wait_trace polls 0
        = List.intersperse (.sleep_us 1000) ((polls.take n).map .poll) := by
  obtain ⟨h1, h2, h3, h4⟩ := flash_wait_polls_sound polls 0 n (by omega) h
  refine ⟨by omega, h2, h3, ?_, flash_wait_trace_spacing polls 0 n h⟩
  intro m hm hcontra
  exact h4 m hm ⟨by omega, hcontra.2⟩

/-- C5 on a concrete poll sequence: one busy poll followed by three idle
polls makes flash_wait return after the fourth poll, with the three sleeps
interleaved. -/
theorem flash_wait_debounce_witness :
    flash_wait_polls [1, 0, 0, 0] 0 = some 4
    ∧ (3 ≤ 4 ∧ 4 ≤ ([1, 0, 0, 0] : List Nat).length
      ∧ (∀ j, 4 - 3 ≤ j → j < 4 → (([1, 0, 0, 0] : List Nat).getD j 1) &&& 1 = 0)
      ∧ (∀ m, m < 4 →
          ¬ (3 ≤ m ∧ ∀ j, m - 3 ≤ j → j < m →
              (([1, 0, 0, 0] : List Nat).getD j 1) &&& 1 = 0))
      ∧ flash_wait_trace [1, 0, 0, 0] 0
          = List.intersperse (.sleep_us 1000)
              ((([1, 0, 0, 0] : List Nat).take 4).map .poll)) :=
  ⟨by decide, flash_wait_debounce [1, 0, 0, 0] 4 (by decide)⟩

theorem stream_advance_flags (cl : List (List Nat)) :
    shift_advance_flags (cl.flatMap fun c =>
      [.goToState .CAPTURE_DR, .tapShift (c.map bit_reverse) (c.length * 8) false])
      = List.replicate cl.length false := by
  induction cl with
  | nil => rfl
  | cons c cs ih =>
    rw [List.flatMap_cons, shift_advance_flags, List.filterMap_append]
    rw [shift_advance_flags] at ih
    rw [ih]
    rfl

/-- C6 counterexample: the claim says the streaming loop uses advance = false
on all but the last chunk (so the last chunk would advance out of
Shift-DR); but on a one-chunk bitstream the source passes advance = false on
its only — hence last — chunk as well. -/
theorem prog_sram_last_advance_counterexample :
    prog_sram_stream [0xAA]
      = [.goToState .CAPTURE_DR, .tapShift [0x55] 8 false]
    ∧ shift_advance_flags (prog_sram_stream [0xAA]) = [false]
    ∧ ¬ ((shift_advance_flags (prog_sram_stream [0xAA])).getLast? = some true
          ∧ ∀ adv ∈ (shift_advance_flags (prog_sram_stream [0xAA])).dropLast,
              adv = false) := by
  have hstream : prog_sram_stream [0xAA]
      = [.goToState .CAPTURE_DR, .tapShift [0x55] 8 false] := by
    rw [prog_sram_stream]
    rw [dif_neg (by simp)]
    rw [List.take_of_length_le (by norm_num), List.drop_eq_nil_of_le (by norm_num)]
    rw [prog_sram_stream]
    simp only [dif_pos rfl]
    decide
  refine ⟨hstream, by rw [hstream]; rfl, ?_⟩
  rw [hstream]
  decide

/-- C6 amended: in SRAM program mode, after LSC_BITSTREAM_BURST the
bitstream file is streamed in 16 KiB chunks (full 16384-byte chunks except
possibly the last, which is nonempty; together they are exactly the file)
through bit-reversed DR shifts with advance = false on EVERY chunk, the last
included, and the mode finishes with ISC_DISABLE and a final status read. -/
theorem prog_sram_mode_stream (t : device_type) (file : List Nat) :
    prog_sram_trace t file
      = ecp_jtag_cmd8 ISC_ENABLE 0 ++ ecp_jtag_cmd8 ISC_ERASE 0 ++
          ecp_jtag_cmd8 LSC_RESET_CRC 0 ++ read_status_register_events t ++
          ecp_jtag_cmd LSC_BITSTREAM_BURST ++
          ((chunks 16384 file).flatMap fun c =>
            [.goToState .CAPTURE_DR,
             .tapShift (c.map bit_reverse) (c.length * 8) false]) ++
          ecp_jtag_cmd ISC_DISABLE ++ read_status_register_events t
    ∧ (chunks 16384 file).flatten = file
    ∧ (∀ c ∈ chunks 16384 file, c ≠ [] ∧ c.length ≤ 16384)
    ∧ (∀ i, i + 1 < (chunks 16384 file).length →
        ((chunks 16384 file).getD i []).length = 16384)
    ∧ (∀ adv ∈ shift_advance_flags (prog_sram_stream file), adv = false) := by
  refine ⟨?_, chunks_flatten 16384 (by norm_num) file, chunks_mem 16384 file,
    chunks_full 16384 file, ?_⟩
  · rw [prog_sram_trace, prog_sram_stream_eq]
  · rw [prog_sram_stream_eq, stream_advance_flags]
    intro adv hadv
    exact List.eq_of_mem_replicate hadv

/-- C7: read_idcode shifts the 8-bit READ_ID instruction into IR, then 32
bits out of DR, and the reassembly loop idcode = data[i] << 24 | idcode >> 8
over exactly the 4 response bytes yields
(byte3 << 24) | (byte2 << 16) | (byte1 << 8) | byte0. -/
theorem read_idcode_reassembly (b0 b1 b2 b3 : Nat) (h0 : b0 < 256)
    (h1 : b1 < 256) (h2 : b2 < 256) (h3 : b3 < 256) :
    read_idcode_events
      = [ .goToState .SHIFT_IR, .tapShift [READ_ID] 8 true,
          .goToState .SHIFT_DR, .tapShift [0, 0, 0, 0] 32 true ]
    ∧ format_u32 [b0, b1, b2, b3]
        = (b3 <<< 24) ||| (b2 <<< 16) ||| (b1 <<< 8) ||| b0 := by
  refine ⟨rfl, ?_⟩
  rw [format_u32_bytes b0 b1 b2 b3 h0 h1 h2 h3,
    bytes_lor_eq b0 b1 b2 b3 h0 h1 h2 h3]

/-- C7 on concrete response bytes 0x43 0x10 0x11 0x41 (LSB first): the
reassembled IDCODE is 0x41111043. -/
theorem read_idcode_reassembly_witness :
    (0x43 : Nat) < 256 ∧ (0x10 : Nat) < 256 ∧ (0x11 : Nat) < 256
    ∧ (0x41 : Nat) < 256
    ∧ format_u32 [0x43, 0x10, 0x11, 0x41] = 0x41111043 := by
  refine ⟨by norm_num, by norm_num, by norm_num, by norm_num, ?_⟩
  have h := (read_idcode_reassembly 0x43 0x10 0x11 0x41 (by norm_num)
    (by norm_num) (by norm_num) (by norm_num)).2
  rw [h]
  decide

theorem print_idcode_ecp (ecp nx : List device_id_pair) (idcode : Nat)
    (d : device_id_pair)
    (h : ecp.find? (fun x => x.device_id == idcode) = some d) :
    print_idcode ecp nx idcode
      = { name := d.device_name, id := idcode, type := .TYPE_ECP5 } := by
  rw [print_idcode, h]

theorem print_idcode_nx (ecp nx : List device_id_pair) (idcode : Nat)
    (d : device_id_pair)
    (h1 : ecp.find? (fun x => x.device_id == idcode) = none)
    (h2 : nx.find? (fun x => x.device_id == idcode) = some d) :
    print_idcode ecp nx idcode
      = { name := d.device_name, id := idcode, type := .TYPE_NX } := by
  rw [print_idcode, h1, h2]

theorem print_idcode_none (ecp nx : List device_id_pair) (idcode : Nat)
    (h1 : ecp.find? (fun x => x.device_id == idcode) = none)
    (h2 : nx.find? (fun x => x.device_id == idcode) = none) :
    print_idcode ecp nx idcode
      = { name := "", id := idcode, type := .TYPE_NONE } := by
  rw [print_idcode, h1, h2]

/-- C8: with disjoint vendor tables (as the two family tables are), a device
whose IDCODE is in the ECP5 table gets a status read that shifts exactly 32
DR bits and decodes a 32-bit value, and one whose IDCODE is in the NX table
gets a status read that shifts exactly 64 DR bits and decodes a 64-bit
value. -/
theorem status_read_width (ecp nx : List device_id_pair) (idcode : Nat)
    (resp : List Nat)
    (hdisj : ∀ d ∈ ecp, ∀ d2 ∈ nx, d.device_id ≠ d2.device_id) :
    ((∃ d ∈ ecp, d.device_id = idcode) →
      (print_idcode ecp nx idcode).type = .TYPE_ECP5
      ∧ read_status_register_events (print_idcode ecp nx idcode).type
          = [ .goToState .SHIFT_IR, .tapShift [LSC_READ_STATUS] 8 true,
              .goToState .SHIFT_DR, .tapShift [0, 0, 0, 0] 32 true ]
      ∧ ∃ s, read_status_register_value (print_idcode ecp nx idcode).type resp
            = some s ∧ s < 2 ^ 32)
    ∧ ((∃ d ∈ nx, d.device_id = idcode) →
      (print_idcode ecp nx idcode).type = .TYPE_NX
      ∧ read_status_register_events (print_idcode ecp nx idcode).type
          = [ .goToState .SHIFT_IR, .tapShift [LSC_READ_STATUS] 8 true,
              .goToState .SHIFT_DR,
              .tapShift [0, 0, 0, 0, 0, 0, 0, 0] 64 true ]
      ∧ ∃ s, read_status_register_value (print_idcode ecp nx idcode).type resp
            = some s ∧ s < 2 ^ 64) := by
  constructor
  · rintro ⟨d, hd, hid⟩
    have hsome : (ecp.find? (fun x => x.device_id == idcode)).isSome :=
      List.find?_isSome.mpr ⟨d, hd, by simp [hid]⟩
    obtain ⟨d2, hd2⟩ := Option.isSome_iff_exists.mp hsome
    rw [print_idcode_ecp ecp nx idcode d2 hd2]
    exact ⟨rfl, rfl, format_u32 (resp.take 4), rfl, format_u32_lt _⟩
  · rintro ⟨d, hd, hid⟩
    have hnone : ecp.find? (fun x => x.device_id == idcode) = none := by
      rw [List.find?_eq_none]
      intro x hx
      have := hdisj x hx d hd
      simp only [beq_iff_eq]
      omega
    have hsome : (nx.find? (fun x => x.device_id == idcode)).isSome :=
      List.find?_isSome.mpr ⟨d, hd, by simp [hid]⟩
    obtain ⟨d2, hd2⟩ := Option.isSome_iff_exists.mp hsome
    rw [print_idcode_nx ecp nx idcode d2 hnone hd2]
    exact ⟨rfl, rfl, format_u64 (resp.take 8), rfl, format_u64_lt _⟩

/-- C8 on a concrete pair of one-entry tables: the ECP5 IDCODE 0x41111043
selects the 32-bit status shift, the NX IDCODE 0x010F1043 the 64-bit one. -/
theorem status_read_width_witness :
    (∀ d ∈ [(⟨"LFE5U-25F", 0x41111043⟩ : device_id_pair)],
      ∀ d2 ∈ [(⟨"LIFCL-40", 0x010F1043⟩ : device_id_pair)],
        d.device_id ≠ d2.device_id)
    ∧ ((∃ d ∈ [(⟨"LFE5U-25F", 0x41111043⟩ : device_id_pair)],
          d.device_id = 0x41111043) →
        (print_idcode [⟨"LFE5U-25F", 0x41111043⟩] [⟨"LIFCL-40", 0x010F1043⟩]
            0x41111043).type = .TYPE_ECP5
        ∧ read_status_register_events
            (print_idcode [⟨"LFE5U-25F", 0x41111043⟩]
              [⟨"LIFCL-40", 0x010F1043⟩] 0x41111043).type
            = [ .goToState .SHIFT_IR, .tapShift [LSC_READ_STATUS] 8 true,
                .goToState .SHIFT_DR, .tapShift [0, 0, 0, 0] 32 true ]
        ∧ ∃ s, read_status_register_value
              (print_idcode [⟨"LFE5U-25F", 0x41111043⟩]
                [⟨"LIFCL-40", 0x010F1043⟩] 0x41111043).type [0, 0, 0, 0]
              = some s ∧ s < 2 ^ 32) := by
  constructor
  · decide
  · exact (status_read_width [⟨"LFE5U-25F", 0x41111043⟩]
      [⟨"LIFCL-40", 0x010F1043⟩] 0x41111043 [0, 0, 0, 0] (by decide)).1

/-- C10: when the IDCODE matched neither table the device type is TYPE_NONE;
read_status_register still shifts the LSC_READ_STATUS instruction into IR
and moves to Shift-DR, but then shifts no DR bits at all and decodes no
status value. -/
theorem status_read_unknown (ecp nx : List device_id_pair) (idcode : Nat)
    (resp : List Nat)
    (h1 : ∀ d ∈ ecp, d.device_id ≠ idcode)
    (h2 : ∀ d ∈ nx, d.device_id ≠ idcode) :
    (print_idcode ecp nx idcode).type = .TYPE_NONE
    ∧ read_status_register_events (print_idcode ecp nx idcode).type
        = [ .goToState .SHIFT_IR, .tapShift [LSC_READ_STATUS] 8 true,
            .goToState .SHIFT_DR ]
    ∧ (∀ tdi nBits adv,
        JEvent.tapShift tdi nBits adv
            ∈ read_status_register_events (print_idcode ecp nx idcode).type →
          nBits = 8)
    ∧ read_status_register_value (print_idcode ecp nx idcode).type resp
        = none := by
  have hf1 : ecp.find? (fun x => x.device_id == idcode) = none := by
    rw [List.find?_eq_none]
    intro x hx
    simpa using h1 x hx
  have hf2 : nx.find? (fun x => x.device_id == idcode) = none := by
    rw [List.find?_eq_none]
    intro x hx
    simpa using h2 x hx
  have htype : (print_idcode ecp nx idcode).type = device_type.TYPE_NONE := by
    rw [print_idcode_none ecp nx idcode hf1 hf2]
  rw [htype]
  refine ⟨rfl, rfl, ?_, rfl⟩
  intro tdi nBits adv hmem
  rw [show read_status_register_events device_type.TYPE_NONE
      = [ .goToState .SHIFT_IR, .tapShift [LSC_READ_STATUS] 8 true,
          .goToState .SHIFT_DR ] from rfl] at hmem
  simp only [List.mem_cons, List.not_mem_nil, or_false] at hmem
  rcases hmem with h | h | h
  · exact absurd h (by simp)
  · injection h with e1 e2 e3
  · exact absurd h (by simp)

/-- C9 on a concrete input: a three-byte file whose very first chunk differs
from the flash read-back stream is compared once and the run exits with
code 3. -/
theorem verify_loop_stops_witness :
    (∀ j, j < 0 → (chunks 4096 [1, 2, 3]).getD j []
        = flash_chunk (fun _ => 0) (0 + 4096 * j)
            ((chunks 4096 [1, 2, 3]).getD j []).length)
    ∧ 0 < (chunks 4096 [1, 2, 3]).length
    ∧ (chunks 4096 [1, 2, 3]).getD 0 []
        ≠ flash_chunk (fun _ => 0) (0 + 4096 * 0)
            ((chunks 4096 [1, 2, 3]).getD 0 []).length
    ∧ verify_loop [1, 2, 3] (fun _ => 0) 0 = (0 + 1, some 3) := by
  have hch : chunks 4096 [1, 2, 3] = [[1, 2, 3]] := by
    rw [chunks, if_neg (by simp), List.take_of_length_le (by norm_num),
      List.drop_eq_nil_of_le (by norm_num), chunks_nil]
  have hpre : ∀ j, j < 0 → (chunks 4096 [1, 2, 3]).getD j []
      = flash_chunk (fun _ => 0) (0 + 4096 * j)
          ((chunks 4096 [1, 2, 3]).getD j []).length :=
    fun j hj => absurd hj (Nat.not_lt_zero j)
  have hlen : 0 < (chunks 4096 [1, 2, 3]).length := by
    rw [hch]
    norm_num
  have hmis : (chunks 4096 [1, 2, 3]).getD 0 []
      ≠ flash_chunk (fun _ => 0) (0 + 4096 * 0)
          ((chunks 4096 [1, 2, 3]).getD 0 []).length := by
    rw [hch]
    decide
  exact ⟨hpre, hlen, hmis,
    verify_loop_stops_at_first_mismatch [1, 2, 3] (fun _ => 0) 0 0 hpre hlen hmis⟩

/-- C10 on concrete one-entry tables and the IDCODE 0xDEADBEEF that matches
neither. -/
theorem status_read_unknown_witness :
    (∀ d ∈ [(⟨"LFE5U-25F", 0x41111043⟩ : device_id_pair)],
      d.device_id ≠ 0xDEADBEEF)
    ∧ (∀ d ∈ [(⟨"LIFCL-40", 0x010F1043⟩ : device_id_pair)],
      d.device_id ≠ 0xDEADBEEF)
    ∧ (print_idcode [⟨"LFE5U-25F", 0x41111043⟩] [⟨"LIFCL-40", 0x010F1043⟩]
        0xDEADBEEF).type = .TYPE_NONE
    ∧ read_status_register_events
        (print_idcode [⟨"LFE5U-25F", 0x41111043⟩] [⟨"LIFCL-40", 0x010F1043⟩]
          0xDEADBEEF).type
        = [ .goToState .SHIFT_IR, .tapShift [LSC_READ_STATUS] 8 true,
            .goToState .SHIFT_DR ]
    ∧ read_status_register_value
        (print_idcode [⟨"LFE5U-25F", 0x41111043⟩] [⟨"LIFCL-40", 0x010F1043⟩]
          0xDEADBEEF).type [0, 0, 0, 0] = none := by
  have h := status_read_unknown [⟨"LFE5U-25F", 0x41111043⟩]
    [⟨"LIFCL-40", 0x010F1043⟩] 0xDEADBEEF [0, 0, 0, 0]
    (by decide) (by decide)
  exact ⟨by decide, by decide, h.1, h.2.1, h.2.2.2⟩

end Ecpprog
